import Mathlib

/-!
Verification of the NCBI GenBank retriever script (`s28515_2025-2.py`).

The script is shallowly embedded below.  Python strings are Lean `String`s;
the Python string primitives the script uses (`str.split` with a separator,
`str.split()` on whitespace, `str.startswith`, slicing, `str.strip`,
`str.replace`, `int(...)`) are modelled as executable functions on the
underlying character lists.  Fallible Python operations (`int(...)` raising
`ValueError`, list indexing raising `IndexError`) are modelled with
`Except String`.  The remote NCBI service is modelled as function parameters:
the search endpoint as `String → SearchResults` (query term to reply) and the
fetch endpoint as `Nat → String` (batch offset to raw text reply).
-/

/-! ## Python string primitives -/

instance {ε α : Type} [DecidableEq ε] [DecidableEq α] : DecidableEq (Except ε α) := fun x y =>
  match x, y with
  | .ok a, .ok b => decidable_of_iff (a = b) (by simp)
  | .error a, .error b => decidable_of_iff (a = b) (by simp)
  | .ok _, .error _ => isFalse (by intro h; cases h)
  | .error _, .ok _ => isFalse (by intro h; cases h)

/-- Model of Python `str.startswith(p)`. -/
def pyStartsWith (s p : String) : Bool :=
  p.data.isPrefixOf s.data

/-- Core of Python `str.split(sep)` for a non-empty separator: scan left to
right; each time the accumulated segment (held reversed in `acc`) ends with
`sep`, cut it.  Occurrences are found leftmost-first and non-overlapping,
exactly as in Python. -/
def pySplitAccum (sep : List Char) : List Char → List Char → List (List Char)
  | [], acc => [acc.reverse]
  | c :: cs, acc =>
    if sep.reverse.isPrefixOf (c :: acc) then
      ((c :: acc).drop sep.length).reverse :: pySplitAccum sep cs []
    else
      pySplitAccum sep cs (c :: acc)

/-- Model of Python `s.split(sep)` (non-empty `sep`). -/
def pySplit (s sep : String) : List String :=
  (pySplitAccum sep.data s.data []).map String.mk

/-- Helper for `pySplitWs`: split on runs of whitespace, keeping only the
non-empty chunks (`acc` holds the current chunk reversed). -/
def pySplitWsAux : List Char → List Char → List String
  | [], acc => if acc.isEmpty then [] else [String.mk acc.reverse]
  | c :: cs, acc =>
    if c.isWhitespace then
      (if acc.isEmpty then [] else [String.mk acc.reverse]) ++ pySplitWsAux cs []
    else
      pySplitWsAux cs (c :: acc)

/-- Model of Python `s.split()` with no argument: split on whitespace runs,
with no empty tokens. -/
def pySplitWs (s : String) : List String :=
  pySplitWsAux s.data []

/-- Strip leading and trailing whitespace from a character list. -/
def pyStripChars (cs : List Char) : List Char :=
  ((cs.dropWhile Char.isWhitespace).reverse.dropWhile Char.isWhitespace).reverse

/-- Model of Python `s.strip()`. -/
def pyStrip (s : String) : String :=
  String.mk (pyStripChars s.data)

/-- Model of Python `s[n:]` (slicing is by characters). -/
def pySliceFrom (s : String) (n : Nat) : String :=
  String.mk (s.data.drop n)

/-- Model of Python `s.replace(a, b)` for single-character `a`, `b`
(the script only replaces the character `'\n'` by a space). -/
def pyReplaceChar (s : String) (a b : Char) : String :=
  String.mk (s.data.map fun c => if c = a then b else c)

/-- Digit-group validity for Python `int(...)`: non-empty digits, where an
underscore may appear only between two digits.  The Boolean argument records
whether the previous character was a digit. -/
def pyDigitsAux : List Char → Bool → Bool
  | [], prev => prev
  | c :: cs, prev =>
    if c.isDigit then pyDigitsAux cs true
    else if c = '_' then prev && pyDigitsAux cs false
    else false

/-- Numeric value of a valid Python digit group (underscores ignored). -/
def pyDigitsVal (cs : List Char) : Nat :=
  (cs.filter fun c => c ≠ '_').foldl (fun n c => 10 * n + (c.toNat - '0'.toNat)) 0

/-- Model of Python `int(s)`: optional surrounding whitespace, optional sign,
then a digit group; anything else raises `ValueError`. -/
def pyInt (s : String) : Except String Int :=
  match pyStripChars s.data with
  | '+' :: rest =>
    if pyDigitsAux rest false then .ok (pyDigitsVal rest : Int) else .error "ValueError"
  | '-' :: rest =>
    if pyDigitsAux rest false then .ok (-(pyDigitsVal rest : Int)) else .error "ValueError"
  | rest =>
    if pyDigitsAux rest false then .ok (pyDigitsVal rest : Int) else .error "ValueError"

/-- Fuel-driven core of Python `range(start, stop, step)` for positive
`step`: yield `start` while `start < stop`, then advance by `step`. -/
def pyRangeAux (step : Nat) : Nat → Nat → Nat → List Nat
  | 0, _, _ => []
  | fuel + 1, start, stop =>
    if start < stop then start :: pyRangeAux step fuel (start + step) stop else []

/-- Model of Python `range(start, stop, step)` for positive `step`
(`stop + 1` units of fuel always suffice). -/
def pyRange (start stop step : Nat) : List Nat :=
  pyRangeAux step (stop + 1) start stop

/-- Python truthiness of an optional integer (`if min_len:`):
`None` and `0` are falsy. -/
def pyTruthyInt : Option Int → Bool
  | none => false
  | some n => n ≠ 0

/-! ## Embedding of the script -/

/-- The fields of the `Entrez.esearch` reply that the script reads:
`Count`, `WebEnv` and `QueryKey`. -/
structure SearchResults where
  count : Nat
  webenv : String
  query_key : String

/-- The search term built by `NCBIRetriever.search_taxid` (lines 24-26):
`f"txid{taxid}[Organism]"`, and when `min_len` is truthy the suffix
`f" AND {min_len}:{max_len or ''}[SLEN]"`. -/
def search_term (taxid : String) (min_len max_len : Option Int) : String :=
  let base := "txid" ++ taxid ++ "[Organism]"
  match min_len with
  | some m =>
    if m ≠ 0 then
      base ++ " AND " ++ toString m ++ ":" ++
        (match max_len with
         | some x => if x ≠ 0 then toString x else ""
         | none => "") ++ "[SLEN]"
    else base
  | none => base

/-- `NCBIRetriever.search_taxid` (lines 22-30): build the term, query the
remote index (`remote` models `Entrez.esearch` + `Entrez.read`), and return
the results only when the reported count is positive (`None` otherwise). -/
def search_taxid (remote : String → SearchResults) (taxid : String)
    (min_len max_len : Option Int) : Option SearchResults :=
  let results := remote (search_term taxid min_len max_len)
  if 0 < results.count then some results else none

/-- The batch offsets iterated by `NCBIRetriever.fetch_records` (line 35):
`range(0, count, batch_size)`; one `Entrez.efetch` request is issued per
offset. -/
def request_offsets (count batch_size : Nat) : List Nat :=
  pyRange 0 count batch_size

/-- Line 45: one batch reply is split on the record separator and the last
segment is dropped (`handle.read().split('//\n')[:-1]`). -/
def splitBlocks (response : String) : List String :=
  (pySplit response "//\n").dropLast

/-- `NCBIRetriever.fetch_records` (lines 32-47): extend `records` with the
blocks of each batch reply, in offset order.  `pages` models the remote
fetch endpoint (offset to raw reply text). -/
def fetch_records (pages : Nat → String) (count batch_size : Nat) : List String :=
  (request_offsets count batch_size).foldl
    (fun records start => records ++ splitBlocks (pages start)) []

/-- The three local variables of the per-record loop of `parse_records`
(line 54): `accession = length = description = None`. -/
structure ParseSt where
  accession : Option String
  length : Option Int
  description : Option String
deriving DecidableEq

/-- One iteration of the line loop of `parse_records` (lines 55-61):
`ACCESSION` lines store their second whitespace token (`line.split()[1]`,
`IndexError` when absent); `DEFINITION` lines store the stripped remainder
after the 12-character label; `LOCUS` lines store `int(line.split()[2])`
(`IndexError` when absent, `ValueError` when not an integer). -/
def parse_line (st : ParseSt) (line : String) : Except String ParseSt :=
  if pyStartsWith line "ACCESSION" then
    match (pySplitWs line)[1]? with
    | some tok => .ok { st with accession := some tok }
    | none => .error "IndexError"
  else if pyStartsWith line "DEFINITION" then
    .ok { st with description := some (pyStrip (pyReplaceChar (pySliceFrom line 12) '\n' ' ')) }
  else if pyStartsWith line "LOCUS" then
    match (pySplitWs line)[2]? with
    | some tok =>
      match pyInt tok with
      | .ok n => .ok { st with length := some n }
      | .error e => .error e
    | none => .error "IndexError"
  else
    .ok st

/-- The line loop of `parse_records` over one record's lines. -/
def scan_lines (st : ParseSt) (lines : List String) : Except String ParseSt :=
  lines.foldlM parse_line st

/-- One extracted row, `[accession, length, description]` (line 63); the
appended `accession` is a string, `length` and `description` may be `None`. -/
structure Row where
  accession : String
  length : Option Int
  description : Option String
deriving DecidableEq

/-- Lines 62-63: `if accession: data.append([...])` — Python truthiness of
the string-or-`None` variable (`None` and `""` are falsy). -/
def emit_row (st : ParseSt) : List Row :=
  match st.accession with
  | some a => if a = "" then [] else [⟨a, st.length, st.description⟩]
  | none => []

/-- `NCBIRetriever.parse_records` (lines 49-64): for each record block,
split into lines, scan them, and append a row when an accession was set.
An exception in any line aborts the whole call. -/
def parse_records (records : List String) : Except String (List Row) :=
  records.foldlM
    (fun data record => do
      let st ← scan_lines ⟨none, none, none⟩ (pySplit record "\n")
      pure (data ++ emit_row st))
    []

/-- One CSV line of the report (`df.to_csv`, line 69); a missing value is
rendered as an empty cell (numeric formatting simplified — only the header
and the row order matter to the claims below). -/
def rowCsv (r : Row) : String :=
  r.accession ++ "," ++
    (match r.length with | some n => toString n | none => "") ++ "," ++
    (match r.description with | some d => d | none => "")

/-- `NCBIRetriever.generate_csv` (lines 66-70): the CSV file lines (header
then one line per row, in insertion order) and the returned `DataFrame`,
modelled by its row list. -/
def generate_csv (data : List Row) : List String × List Row :=
  ("Accession,Length,Description" :: data.map rowCsv, data)

/-- Order used by `df.sort_values('Length', ascending=False)` (line 74):
`a` may come before `b` iff `a`'s length is at least `b`'s, missing lengths
last. -/
def lengthDescLe (a b : Row) : Bool :=
  match a.length, b.length with
  | some x, some y => y ≤ x
  | some _, none => true
  | none, some _ => false
  | none, none => true

/-- Pandas `df.sort_values('Length', ascending=False)`: returns a new,
reordered frame and leaves its argument unchanged (`inplace` is not set). -/
def sort_values_length_desc (df : List Row) : List Row :=
  df.mergeSort lengthDescLe

/-- `NCBIRetriever.plot_lengths` (lines 72-83): the rebound local `df` is the
sorted copy; the chart plots (accession, length) pairs in that order.  The
result pairs the plotted points with the caller's table as it stands after
the call. -/
def plot_lengths (df : List Row) : List (String × Option Int) × List Row :=
  let sorted := sort_values_length_desc df
  (sorted.map fun r => (r.accession, r.length), df)

/-- Outcome of `main` (lines 86-122) after the search step:
`exited` models `sys.exit("No records found")` (no output file is written),
`raised` models an uncaught exception from `parse_records`, and
`finished rows` means both output files are written from `rows`. -/
inductive MainResult where
  | exited (msg : String)
  | raised (e : String)
  | finished (rows : List Row)
deriving DecidableEq

/-- The pipeline of `main` (lines 102-122): search, stop with
"No records found" when the search returned `None`, else fetch
`min(count, 100)` records in batches of 10 and parse them; the parsed rows
feed `generate_csv` and `plot_lengths`. -/
def main_run (remote : String → SearchResults) (pages : Nat → String)
    (taxid : String) (min_len max_len : Option Int) : MainResult :=
  match search_taxid remote taxid min_len max_len with
  | none => .exited "No records found"
  | some results =>
    match parse_records (fetch_records pages (min results.count 100) 10) with
    | .error e => .raised e
    | .ok data => .finished data

/-- Well-formedness of one line for the extractor: its scan cannot raise.
`ACCESSION` lines need a second token; `LOCUS` lines need a third token that
`int(...)` accepts; everything else is always safe. -/
def lineWF (line : String) : Bool :=
  if pyStartsWith line "ACCESSION" then
    ((pySplitWs line)[1]?).isSome
  else if pyStartsWith line "DEFINITION" then
    true
  else if pyStartsWith line "LOCUS" then
    match (pySplitWs line)[2]? with
    | some tok => (pyInt tok).toOption.isSome
    | none => false
  else
    true

/-- The last element of `lines` satisfying `p`, if any (the value kept by a
single left-to-right pass that overwrites on every match). -/
def lastMatch (p : String → Bool) (lines : List String) : Option String :=
  lines.foldl (fun acc line => if p line then some line else acc) none


/-! ## Helper lemmas -/

/-- `pyRangeAux` with enough fuel agrees with the closed form of Python's
`range`: `⌈(stop - start) / step⌉` elements, the `i`-th being
`start + i * step`. -/
theorem pyRangeAux_eq (step : Nat) (hstep : 0 < step) (fuel : Nat) :
    ∀ start stop : Nat, stop - start ≤ fuel →
      pyRangeAux step fuel start stop =
        (List.range ((stop - start + step - 1) / step)).map (fun i => start + i * step) := by
  induction fuel with
  | zero =>
    intro start stop h
    have hd : stop - start = 0 := by omega
    have hz : (stop - start + step - 1) / step = 0 := by
      rw [hd]; exact Nat.div_eq_of_lt (by omega)
    simp [pyRangeAux, hz]
  | succ fuel ih =>
    intro start stop h
    by_cases hlt : start < stop
    · have hrec : stop - (start + step) = stop - start - step := by omega
      have hceil : (stop - start + step - 1) / step = (stop - start - step + step - 1) / step + 1 := by
        have h1 : stop - start + step - 1 = (stop - start - 1) + step := by omega
        rw [h1, Nat.add_div_right _ hstep]
        by_cases hds : step < stop - start
        · have h2 : stop - start - step + step - 1 = stop - start - 1 := by omega
          rw [h2]
        · have h2 : stop - start - step = 0 := by omega
          rw [h2]
          have h3 : (step - 1) / step = 0 := Nat.div_eq_of_lt (by omega)
          have h4 : (stop - start - 1) / step = 0 := Nat.div_eq_of_lt (by omega)
          simp [h3, h4]
      have hfun : (fun i => start + (i + 1) * step) = (fun i => (start + step) + i * step) := by
        funext i; ring
      simp only [pyRangeAux, if_pos hlt, ih (start + step) stop (by omega), hrec, hceil,
        List.range_succ_eq_map, List.map_cons, List.map_map]
      rw [show start + 0 * step = start by omega,
          show ((fun i => start + i * step) ∘ Nat.succ) = fun i => (start + step) + i * step by
            funext i; simp only [Function.comp_apply, Nat.succ_eq_add_one]; ring]
    · have hd : stop - start = 0 := by omega
      have hz : (stop - start + step - 1) / step = 0 := by
        rw [hd]; exact Nat.div_eq_of_lt (by omega)
      simp [pyRangeAux, if_neg hlt, hz]

/-- Closed form of the model of Python `range` for a positive step. -/
theorem pyRange_eq (start stop step : Nat) (hstep : 0 < step) :
    pyRange start stop step =
      (List.range ((stop - start + step - 1) / step)).map (fun i => start + i * step) :=
  pyRangeAux_eq step hstep (stop + 1) start stop (by omega)

/-- Length of a fold that appends a chunk per element: the sum of the chunk
lengths. -/
theorem foldl_append_length (g : Nat → List String) :
    ∀ (L : List Nat) (init : List String),
      (L.foldl (fun acc o => acc ++ g o) init).length
        = init.length + (L.map fun o => (g o).length).sum := by
  intro L
  induction L with
  | nil => intro init; simp
  | cons x xs ih => intro init; simp [List.foldl_cons, ih]; omega

/-- A non-empty reversed accumulator yields a non-empty token. -/
theorem mk_reverse_ne_empty (acc : List Char) (h : acc.isEmpty = false) :
    String.mk acc.reverse ≠ "" := by
  intro he
  have hrev : acc.reverse = [] := by
    have := congrArg String.data he
    simpa using this
  simp at hrev
  simp [hrev] at h

/-- Whitespace splitting produces no empty token. -/
theorem pySplitWsAux_not_mem_empty : ∀ (l acc : List Char), "" ∉ pySplitWsAux l acc := by
  intro l
  induction l with
  | nil =>
    intro acc h
    by_cases ha : acc.isEmpty
    · simp [pySplitWsAux, ha] at h
    · rw [pySplitWsAux, if_neg ha] at h
      exact mk_reverse_ne_empty acc (by simpa using ha) (List.mem_singleton.mp h).symm
  | cons c cs ih =>
    intro acc h
    by_cases hw : c.isWhitespace
    · rw [pySplitWsAux, if_pos hw] at h
      rcases List.mem_append.mp h with h1 | h2
      · by_cases ha : acc.isEmpty
        · simp [ha] at h1
        · rw [if_neg ha] at h1
          exact mk_reverse_ne_empty acc (by simpa using ha) (List.mem_singleton.mp h1).symm
      · exact ih [] h2
    · rw [pySplitWsAux, if_neg hw] at h
      exact ih (c :: acc) h

/-- A token read from a whitespace split is never the empty string. -/
theorem pySplitWs_get?_ne_empty {s t : String} {n : Nat}
    (h : (pySplitWs s)[n]? = some t) : t ≠ "" := by
  intro he
  subst he
  exact pySplitWsAux_not_mem_empty s.data [] (List.getElem?_mem h)

/-- If `p` starts with `c` and `l` starts with `p`, then `l`'s first
character is `c`. -/
theorem marker_first_char {l p : String} {c : Char} {rest : List Char}
    (hp : p.data = c :: rest) (h : pyStartsWith l p = true) :
    ∃ cs, l.data = c :: cs := by
  unfold pyStartsWith at h
  rw [hp] at h
  cases hl : l.data with
  | nil => rw [hl] at h; simp [List.isPrefixOf] at h
  | cons d ds =>
    rw [hl] at h
    simp [List.isPrefixOf] at h
    exact ⟨ds, by rw [h.1]⟩

/-- Two markers with different first characters cannot both be prefixes. -/
theorem startsWith_ne_first {l p q : String} {c d : Char} {pr qr : List Char}
    (hp : p.data = c :: pr) (hq : q.data = d :: qr) (hcd : c ≠ d)
    (h : pyStartsWith l p = true) : pyStartsWith l q = false := by
  obtain ⟨cs, hl⟩ := marker_first_char hp h
  unfold pyStartsWith
  rw [hq, hl]
  simp [List.isPrefixOf, Ne.symm hcd]

theorem loc_not_acc {l : String} (h : pyStartsWith l "LOCUS" = true) :
    pyStartsWith l "ACCESSION" = false :=
  @startsWith_ne_first l "LOCUS" "ACCESSION" 'L' 'A' ['O', 'C', 'U', 'S']
    ['C', 'C', 'E', 'S', 'S', 'I', 'O', 'N'] rfl rfl (by decide) h

theorem loc_not_def {l : String} (h : pyStartsWith l "LOCUS" = true) :
    pyStartsWith l "DEFINITION" = false :=
  @startsWith_ne_first l "LOCUS" "DEFINITION" 'L' 'D' ['O', 'C', 'U', 'S']
    ['E', 'F', 'I', 'N', 'I', 'T', 'I', 'O', 'N'] rfl rfl (by decide) h

theorem acc_not_loc {l : String} (h : pyStartsWith l "ACCESSION" = true) :
    pyStartsWith l "LOCUS" = false :=
  @startsWith_ne_first l "ACCESSION" "LOCUS" 'A' 'L' ['C', 'C', 'E', 'S', 'S', 'I', 'O', 'N']
    ['O', 'C', 'U', 'S'] rfl rfl (by decide) h

theorem acc_not_def {l : String} (h : pyStartsWith l "ACCESSION" = true) :
    pyStartsWith l "DEFINITION" = false :=
  @startsWith_ne_first l "ACCESSION" "DEFINITION" 'A' 'D' ['C', 'C', 'E', 'S', 'S', 'I', 'O', 'N']
    ['E', 'F', 'I', 'N', 'I', 'T', 'I', 'O', 'N'] rfl rfl (by decide) h

theorem def_not_acc {l : String} (h : pyStartsWith l "DEFINITION" = true) :
    pyStartsWith l "ACCESSION" = false :=
  @startsWith_ne_first l "DEFINITION" "ACCESSION" 'D' 'A' ['E', 'F', 'I', 'N', 'I', 'T', 'I', 'O', 'N']
    ['C', 'C', 'E', 'S', 'S', 'I', 'O', 'N'] rfl rfl (by decide) h

theorem def_not_loc {l : String} (h : pyStartsWith l "DEFINITION" = true) :
    pyStartsWith l "LOCUS" = false :=
  @startsWith_ne_first l "DEFINITION" "LOCUS" 'D' 'L' ['E', 'F', 'I', 'N', 'I', 'T', 'I', 'O', 'N']
    ['O', 'C', 'U', 'S'] rfl rfl (by decide) h

/-- The value an `ACCESSION` line contributes: its second whitespace token. -/
def accValue (line : String) : Option String :=
  (pySplitWs line)[1]?

/-- The value a `LOCUS` line contributes: its third whitespace token parsed
as an integer (absent when the token is absent or invalid). -/
def locValue (line : String) : Option Int :=
  ((pySplitWs line)[2]?).bind fun tok => (pyInt tok).toOption

/-- The value a `DEFINITION` line contributes: the stripped remainder after
the 12-character label. -/
def defValue (line : String) : Option String :=
  some (pyStrip (pyReplaceChar (pySliceFrom line 12) '\n' ' '))

/-- The effect of one line on the `accession` variable. -/
def stepAcc (a : Option String) (line : String) : Option String :=
  if pyStartsWith line "ACCESSION" then accValue line else a

/-- The effect of one successfully scanned line on the `length` variable. -/
def stepLen (a : Option Int) (line : String) : Option Int :=
  if pyStartsWith line "ACCESSION" then a
  else if pyStartsWith line "DEFINITION" then a
  else if pyStartsWith line "LOCUS" then
    match (pySplitWs line)[2]? with
    | some tok => (pyInt tok).toOption
    | none => a
  else a

/-- The effect of one line on the `description` variable. -/
def stepDef (a : Option String) (line : String) : Option String :=
  if pyStartsWith line "ACCESSION" then a
  else if pyStartsWith line "DEFINITION" then defValue line
  else a

/-- A successfully scanned line updates the three variables exactly as the
step functions describe. -/
theorem parse_line_ok_fields {st st1 : ParseSt} {line : String}
    (h : parse_line st line = .ok st1) :
    st1.accession = stepAcc st.accession line ∧
    st1.length = stepLen st.length line ∧
    st1.description = stepDef st.description line := by
  unfold parse_line at h
  unfold stepAcc stepLen stepDef
  by_cases hA : pyStartsWith line "ACCESSION" = true
  · rw [if_pos hA] at h
    cases htok : (pySplitWs line)[1]? with
    | none => rw [htok] at h; cases h
    | some tok =>
      rw [htok] at h
      dsimp only at h
      injection h with h'
      subst h'
      simp [hA, accValue, htok]
  · rw [if_neg hA] at h
    by_cases hD : pyStartsWith line "DEFINITION" = true
    · rw [if_pos hD] at h
      injection h with h'
      subst h'
      simp [hA, hD, defValue]
    · rw [if_neg hD] at h
      by_cases hL : pyStartsWith line "LOCUS" = true
      · rw [if_pos hL] at h
        cases htok : (pySplitWs line)[2]? with
        | none => rw [htok] at h; cases h
        | some tok =>
          rw [htok] at h
          dsimp only at h
          cases hint : pyInt tok with
          | error e => rw [hint] at h; cases h
          | ok n =>
            rw [hint] at h
            dsimp only at h
            injection h with h'
            subst h'
            simp [hA, hD, hL, htok, hint, Except.toOption]
      · rw [if_neg hL] at h
        injection h with h'
        subst h'
        simp [hA, hD, hL]

/-- Unfolding of `scan_lines` on a cons. -/
theorem scan_lines_cons (st : ParseSt) (line : String) (lines : List String) :
    scan_lines st (line :: lines)
      = match parse_line st line with
        | .ok st1 => scan_lines st1 lines
        | .error e => .error e := by
  cases h : parse_line st line with
  | ok st1 => unfold scan_lines; rw [List.foldlM_cons, h]; rfl
  | error e => unfold scan_lines; rw [List.foldlM_cons, h]; rfl

/-- A successful scan computes each of the three variables as a left fold of
its step function over the lines. -/
theorem scan_lines_ok_fields :
    ∀ (lines : List String) (st st' : ParseSt), scan_lines st lines = .ok st' →
      st'.accession = lines.foldl stepAcc st.accession ∧
      st'.length = lines.foldl stepLen st.length ∧
      st'.description = lines.foldl stepDef st.description := by
  intro lines
  induction lines with
  | nil =>
    intro st st' h
    unfold scan_lines at h
    rw [List.foldlM_nil] at h
    injection h with h'
    subst h'
    simp
  | cons line rest ih =>
    intro st st' h
    rw [scan_lines_cons] at h
    cases h1 : parse_line st line with
    | error e => rw [h1] at h; cases h
    | ok st1 =>
      rw [h1] at h
      obtain ⟨ha, hl, hd⟩ := ih st1 st' h
      obtain ⟨ha1, hl1, hd1⟩ := parse_line_ok_fields h1
      refine ⟨?_, ?_, ?_⟩ <;> simp [List.foldl_cons, ha, hl, hd, ha1, hl1, hd1]

/-- A successful scan means every line was well-formed. -/
theorem scan_lines_ok_wf :
    ∀ (lines : List String) (st st' : ParseSt), scan_lines st lines = .ok st' →
      ∀ line ∈ lines, lineWF line = true := by
  intro lines
  induction lines with
  | nil => intro st st' _ line hline; cases hline
  | cons l rest ih =>
    intro st st' h line hline
    rw [scan_lines_cons] at h
    cases h1 : parse_line st l with
    | error e => rw [h1] at h; cases h
    | ok st1 =>
      rw [h1] at h
      rcases List.mem_cons.mp hline with rfl | hmem
      · unfold parse_line at h1
        unfold lineWF
        by_cases hA : pyStartsWith line "ACCESSION" = true
        · rw [if_pos hA] at h1
          rw [if_pos hA]
          cases htok : (pySplitWs line)[1]? with
          | none => rw [htok] at h1; cases h1
          | some tok => simp [htok]
        · rw [if_neg hA] at h1
          rw [if_neg hA]
          by_cases hD : pyStartsWith line "DEFINITION" = true
          · simp [hD]
          · rw [if_neg hD] at h1
            rw [if_neg hD]
            by_cases hL : pyStartsWith line "LOCUS" = true
            · rw [if_pos hL] at h1
              rw [if_pos hL]
              cases htok : (pySplitWs line)[2]? with
              | none => rw [htok] at h1; cases h1
              | some tok =>
                rw [htok] at h1
                dsimp only at h1
                cases hint : pyInt tok with
                | error e => rw [hint] at h1; cases h1
                | ok n => simp [htok, hint, Except.toOption]
            · simp [hL]
      · exact ih st1 st' h line hmem

/-- A well-formed line never makes the scan raise. -/
theorem parse_line_ok_of_wf {line : String} (h : lineWF line = true) (st : ParseSt) :
    ∃ st1, parse_line st line = .ok st1 := by
  unfold lineWF at h
  unfold parse_line
  by_cases hA : pyStartsWith line "ACCESSION" = true
  · rw [if_pos hA] at h
    rw [if_pos hA]
    cases htok : (pySplitWs line)[1]? with
    | none => rw [htok] at h; cases h
    | some tok => exact ⟨_, rfl⟩
  · rw [if_neg hA] at h
    rw [if_neg hA]
    by_cases hD : pyStartsWith line "DEFINITION" = true
    · rw [if_pos hD]; exact ⟨_, rfl⟩
    · rw [if_neg hD] at h
      rw [if_neg hD]
      by_cases hL : pyStartsWith line "LOCUS" = true
      · rw [if_pos hL] at h
        rw [if_pos hL]
        cases htok : (pySplitWs line)[2]? with
        | none => rw [htok] at h; cases h
        | some tok =>
          rw [htok] at h
          dsimp only at h
          cases hint : pyInt tok with
          | error e => simp [hint, Except.toOption] at h
          | ok n =>
            exact ⟨{ st with length := some n }, by dsimp only; rw [hint]⟩
      · rw [if_neg hL]; exact ⟨_, rfl⟩

theorem except_ok_bind {α β : Type} (a : α) (g : α → Except String β) :
    (Except.ok a >>= g) = g a := rfl

theorem except_pure {α : Type} (a : α) :
    (pure a : Except String α) = Except.ok a := rfl

theorem except_error_bind {α β : Type} (e : String) (g : α → Except String β) :
    ((Except.error e : Except String α) >>= g) = Except.error e := rfl

/-- A list of well-formed lines always scans successfully. -/
theorem scan_lines_ok_of_wf :
    ∀ (lines : List String) (st : ParseSt),
      (∀ line ∈ lines, lineWF line = true) → ∃ st', scan_lines st lines = .ok st' := by
  intro lines
  induction lines with
  | nil => intro st _; exact ⟨st, rfl⟩
  | cons l rest ih =>
    intro st h
    obtain ⟨st1, h1⟩ := parse_line_ok_of_wf (h l (by simp)) st
    obtain ⟨st', h2⟩ := ih st1 (fun line hm => h line (by simp [hm]))
    refine ⟨st', ?_⟩
    rw [scan_lines_cons, h1]
    exact h2

/-- Records whose lines are all well-formed parse successfully (generalized
over the accumulated rows). -/
theorem parse_records_go_ok :
    ∀ (records : List String) (data : List Row),
      (∀ r ∈ records, ∀ line ∈ pySplit r "\n", lineWF line = true) →
      ∃ rows,
        records.foldlM
          (fun data record => do
            let st ← scan_lines ⟨none, none, none⟩ (pySplit record "\n")
            pure (data ++ emit_row st))
          data = .ok rows := by
  intro records
  induction records with
  | nil => intro data _; exact ⟨data, rfl⟩
  | cons r rest ih =>
    intro data h
    obtain ⟨st1, h1⟩ :=
      scan_lines_ok_of_wf (pySplit r "\n") ⟨none, none, none⟩ (h r (by simp))
    obtain ⟨rows, h2⟩ := ih (data ++ emit_row st1) (fun r' hr' => h r' (by simp [hr']))
    refine ⟨rows, ?_⟩
    rw [List.foldlM_cons]
    rw [h1, except_ok_bind, except_pure, except_ok_bind]
    exact h2

/-- `parse_records` on a single block: scan it and emit its row list. -/
theorem parse_records_singleton (r : String) :
    parse_records [r]
      = match scan_lines ⟨none, none, none⟩ (pySplit r "\n") with
        | .ok st => .ok (emit_row st)
        | .error e => .error e := by
  unfold parse_records
  simp only [List.foldlM_cons, List.foldlM_nil]
  cases h : scan_lines ⟨none, none, none⟩ (pySplit r "\n") with
  | ok st =>
    rw [except_ok_bind, except_pure, except_ok_bind, except_pure]
    dsimp only
    rw [List.nil_append]
  | error e =>
    rw [except_error_bind, except_error_bind]

/-- `lastMatch` over an appended element. -/
theorem lastMatch_append (p : String → Bool) (xs : List String) (x : String) :
    lastMatch p (xs ++ [x]) = if p x then some x else lastMatch p xs := by
  unfold lastMatch
  rw [List.foldl_append]
  simp

/-- A fold that overwrites on every matching element keeps exactly the value
of the last matching element. -/
theorem foldl_ite_last {α : Type} (p : String → Bool) (f : String → Option α) :
    ∀ (lines : List String) (a0 : Option α),
      lines.foldl (fun a line => if p line then f line else a) a0
        = match lastMatch p lines with
          | some L => f L
          | none => a0 := by
  intro lines
  induction lines using List.reverseRecOn with
  | nil => intro a0; simp [lastMatch]
  | append_singleton xs x ih =>
    intro a0
    rw [List.foldl_append, lastMatch_append]
    by_cases hx : p x = true
    · simp [hx]
    · simp only [List.foldl_cons, List.foldl_nil, hx, if_false, Bool.false_eq_true, if_neg]
      rw [ih]

/-- Folds of functions that agree on the list's elements agree. -/
theorem foldl_congr_mem {α β : Type} (f g : β → α → β) :
    ∀ (l : List α) (b : β), (∀ a ∈ l, ∀ x, f x a = g x a) → l.foldl f b = l.foldl g b := by
  intro l
  induction l with
  | nil => intro b _; rfl
  | cons a as ih =>
    intro b h
    rw [List.foldl_cons, List.foldl_cons, h a (by simp),
      ih _ (fun a' ha' x => h a' (by simp [ha']) x)]

theorem stepAcc_eq (a : Option String) (line : String) :
    stepAcc a line = if pyStartsWith line "ACCESSION" then accValue line else a := rfl

theorem stepDef_eq (a : Option String) (line : String) :
    stepDef a line = if pyStartsWith line "DEFINITION" then defValue line else a := by
  unfold stepDef
  by_cases hA : pyStartsWith line "ACCESSION" = true
  · rw [if_pos hA, if_neg (by simp [acc_not_def hA])]
  · rw [if_neg hA]

theorem stepLen_eq {line : String} (hwf : lineWF line = true) (a : Option Int) :
    stepLen a line = if pyStartsWith line "LOCUS" then locValue line else a := by
  unfold stepLen
  by_cases hA : pyStartsWith line "ACCESSION" = true
  · rw [if_pos hA, if_neg (by simp [acc_not_loc hA])]
  · rw [if_neg hA]
    by_cases hD : pyStartsWith line "DEFINITION" = true
    · rw [if_pos hD, if_neg (by simp [def_not_loc hD])]
    · rw [if_neg hD]
      by_cases hL : pyStartsWith line "LOCUS" = true
      · rw [if_pos hL, if_pos hL]
        unfold lineWF at hwf
        rw [if_neg hA, if_neg hD, if_pos hL] at hwf
        cases htok : (pySplitWs line)[2]? with
        | none => rw [htok] at hwf; simp at hwf
        | some tok => simp [locValue, htok]
      · rw [if_neg hL, if_neg hL]

theorem isPrefixOf_true_iff {l1 l2 : List Char} : l1.isPrefixOf l2 = true ↔ l1 <+: l2 :=
  List.isPrefixOf_iff_prefix

/-- The splitter always returns at least one segment. -/
theorem pySplitAccum_ne_nil (sep : List Char) :
    ∀ (l acc : List Char), pySplitAccum sep l acc ≠ [] := by
  intro l
  induction l with
  | nil => intro acc; simp [pySplitAccum]
  | cons c cs ih =>
    intro acc
    unfold pySplitAccum
    by_cases h : sep.reverse.isPrefixOf (c :: acc) = true
    · rw [if_pos h]; simp
    · rw [if_neg h]; exact ih (c :: acc)

/-- Key fact for the record separator `"//\n"` (which has no non-trivial
border, so occurrences cannot overlap): if the unprocessed input together
with the pending accumulator ends with the separator, the final segment of
the split is empty. -/
theorem pySplitAccum_last_empty :
    ∀ (l acc : List Char),
      ['/', '/', '\n'].reverse.isPrefixOf acc = false →
      ['/', '/', '\n'] <:+ (acc.reverse ++ l) →
      (pySplitAccum ['/', '/', '\n'] l acc).getLast? = some [] := by
  intro l
  induction l with
  | nil =>
    intro acc hinv hsuf
    exfalso
    rw [List.append_nil] at hsuf
    have h' : List.reverse (['/', '/', '\n'].reverse) <:+ List.reverse acc := by
      rw [List.reverse_reverse]; exact hsuf
    have hp : ['/', '/', '\n'].reverse <+: acc := List.reverse_suffix.mp h'
    exact absurd (isPrefixOf_true_iff.mpr hp) (by rw [hinv]; simp)
  | cons c cs ih =>
    intro acc hinv hsuf
    unfold pySplitAccum
    by_cases hcut : ['/', '/', '\n'].reverse.isPrefixOf (c :: acc) = true
    · rw [if_pos hcut]
      have hrest : (pySplitAccum ['/', '/', '\n'] cs []).getLast? = some [] := by
        rcases eq_or_ne cs [] with rfl | hne
        · simp [pySplitAccum]
        · -- cs is non-empty: show the separator is a suffix of cs
          -- the processed part `(c :: acc).reverse` ends with the separator
          have hA : ['/', '/', '\n'] <:+ (c :: acc).reverse := by
            have hp : ['/', '/', '\n'].reverse <+: (c :: acc) := isPrefixOf_true_iff.mp hcut
            have := List.reverse_suffix.mpr hp
            rwa [List.reverse_reverse] at this
          have hT : ['/', '/', '\n'] <:+ ((c :: acc).reverse ++ cs) := by
            have : acc.reverse ++ (c :: cs) = (c :: acc).reverse ++ cs := by
              rw [List.reverse_cons, List.append_assoc, List.singleton_append]
            rwa [this] at hsuf
          obtain ⟨u, hu⟩ := hA
          have hS : ['/', '/', '\n'] <:+ ['/', '/', '\n'] ++ cs := by
            have h1 : ['/', '/', '\n'] ++ cs <:+ (c :: acc).reverse ++ cs := by
              rw [← hu, List.append_assoc]
              exact List.suffix_append u (['/', '/', '\n'] ++ cs)
            exact List.suffix_of_suffix_length_le hT h1 (by simp)
          by_cases hlen : 3 ≤ cs.length
          · have hScs : ['/', '/', '\n'] <:+ cs :=
              List.suffix_of_suffix_length_le hS (List.suffix_append _ cs) (by simpa using hlen)
            exact ih [] (by decide) (by simpa using hScs)
          · exfalso
            obtain ⟨w, hw⟩ := hS
            have hlw : w.length = cs.length := by
              have := congrArg List.length hw
              simp only [List.length_append, List.length_cons, List.length_nil] at this
              omega
            rcases cs with _ | ⟨a, _ | ⟨b, _ | ⟨x, xs⟩⟩⟩
            · exact hne rfl
            · rcases w with _ | ⟨w0, _ | ⟨w1, ws⟩⟩
              · simp only [List.length_cons, List.length_nil] at hlw; omega
              · simp only [List.cons_append, List.nil_append] at hw
                injection hw with h1 hw
                injection hw with h2 hw
                injection hw with h3 hw
                exact absurd h3 (by decide)
              · simp only [List.length_cons, List.length_nil] at hlw; omega
            · rcases w with _ | ⟨w0, _ | ⟨w1, _ | ⟨w2, ws⟩⟩⟩
              · simp only [List.length_cons, List.length_nil] at hlw; omega
              · simp only [List.length_cons, List.length_nil] at hlw; omega
              · simp only [List.cons_append, List.nil_append] at hw
                injection hw with h1 hw
                injection hw with h2 hw
                injection hw with h3 hw
                exact absurd h3 (by decide)
              · simp only [List.length_cons, List.length_nil] at hlw; omega
            · exact hlen (by simp only [List.length_cons]; omega)
      have hne2 := pySplitAccum_ne_nil ['/', '/', '\n'] cs []
      obtain ⟨y, ys, hys⟩ := List.exists_cons_of_ne_nil hne2
      rw [hys, List.getLast?_cons_cons, ← hys]
      exact hrest
    · rw [if_neg hcut]
      apply ih (c :: acc) (by simp only [Bool.not_eq_true] at hcut; exact hcut)
      have : (c :: acc).reverse ++ cs = acc.reverse ++ (c :: cs) := by
        rw [List.reverse_cons, List.append_assoc, List.singleton_append]
      rwa [this]

/-- Any list whose optional last element is `x` splits as `dropLast ++ [x]`. -/
theorem eq_dropLast_append_of_getLast {α : Type} (l : List α) (x : α)
    (h : l.getLast? = some x) : l = l.dropLast ++ [x] := by
  cases l with
  | nil => cases h
  | cons a as =>
    have hne : a :: as ≠ [] := by simp
    rw [List.getLast?_eq_getLast _ hne] at h
    injection h with h'
    conv_lhs => rw [← List.dropLast_append_getLast hne]
    rw [h']

/-- Mapping `String.mk` over a segment list that ends with an empty segment
turns it into the mapped prefix followed by `""`. -/
theorem map_mk_dropLast_append (L : List (List Char))
    (h : L = L.dropLast ++ [[]]) :
    List.map String.mk L = (List.map String.mk L).dropLast ++ [""] := by
  conv_lhs => rw [h]
  conv_rhs => rw [h]
  rw [List.map_append]
  simp only [List.map_cons, List.map_nil]
  rw [List.dropLast_concat]

/-- A batch reply that ends with the record separator splits into the kept
blocks followed by one final empty segment — so `[:-1]` discards exactly
that empty segment. -/
theorem pySplit_eq_splitBlocks_append_empty {r : String}
    (h : ("//\n" : String).data <:+ r.data) :
    pySplit r "//\n" = splitBlocks r ++ [""] := by
  have hlast : (pySplitAccum ['/', '/', '\n'] r.data []).getLast? = some [] := by
    apply pySplitAccum_last_empty r.data [] (by decide)
    simpa using h
  have hcore := eq_dropLast_append_of_getLast _ _ hlast
  exact map_mk_dropLast_append _ hcore

/-- The `accession` fold keeps the value of the last `ACCESSION` line. -/
theorem foldl_stepAcc_eq (lines : List String) (a0 : Option String) :
    lines.foldl stepAcc a0
      = match lastMatch (fun l => pyStartsWith l "ACCESSION") lines with
        | some L => accValue L
        | none => a0 :=
  foldl_ite_last (fun l => pyStartsWith l "ACCESSION") accValue lines a0

/-- The `description` fold keeps the value of the last `DEFINITION` line. -/
theorem foldl_stepDef_eq (lines : List String) (a0 : Option String) :
    lines.foldl stepDef a0
      = match lastMatch (fun l => pyStartsWith l "DEFINITION") lines with
        | some L => defValue L
        | none => a0 := by
  rw [foldl_congr_mem stepDef
    (fun a line => if pyStartsWith line "DEFINITION" then defValue line else a)
    lines a0 (fun line _ a => stepDef_eq a line)]
  exact foldl_ite_last _ _ lines a0

/-- On well-formed lines, the `length` fold keeps the value of the last
`LOCUS` line. -/
theorem foldl_stepLen_eq {lines : List String}
    (hwf : ∀ line ∈ lines, lineWF line = true) (a0 : Option Int) :
    lines.foldl stepLen a0
      = match lastMatch (fun l => pyStartsWith l "LOCUS") lines with
        | some L => locValue L
        | none => a0 := by
  rw [foldl_congr_mem stepLen
    (fun a line => if pyStartsWith line "LOCUS" then locValue line else a)
    lines a0 (fun line hm a => stepLen_eq (hwf line hm) a)]
  exact foldl_ite_last _ _ lines a0

/-- A fold over an all-non-matching list keeps its initial value. -/
theorem lastMatch_eq_none {p : String → Bool} :
    ∀ {lines : List String}, (∀ line ∈ lines, p line = false) → lastMatch p lines = none := by
  intro lines
  induction lines with
  | nil => intro _; rfl
  | cons l rest ih =>
    intro h
    unfold lastMatch at ih ⊢
    rw [List.foldl_cons, if_neg (by simp [h l (by simp)])]
    exact ih (fun line hm => h line (by simp [hm]))

/-- A successful single-block parse with an accession emits exactly that row. -/
theorem parse_records_single_row {r : String} {st : ParseSt} {t : String}
    (hok : scan_lines ⟨none, none, none⟩ (pySplit r "\n") = .ok st)
    (hacc : st.accession = some t) (hne : t ≠ "") :
    parse_records [r] = .ok [⟨t, st.length, st.description⟩] := by
  rw [parse_records_singleton, hok]
  dsimp only
  unfold emit_row
  rw [hacc]
  dsimp only
  rw [if_neg hne]

/-- A successful single-block parse with no accession emits no row. -/
theorem parse_records_no_row {r : String} {st : ParseSt}
    (hok : scan_lines ⟨none, none, none⟩ (pySplit r "\n") = .ok st)
    (hacc : st.accession = none) :
    parse_records [r] = .ok [] := by
  rw [parse_records_singleton, hok]
  dsimp only
  unfold emit_row
  rw [hacc]

/-- After a successful scan that set the accession, the value is a
whitespace token of some line (hence non-empty). -/
theorem scan_accession_token {lines : List String} {st : ParseSt} {t : String}
    (hok : scan_lines ⟨none, none, none⟩ lines = .ok st)
    (hacc : st.accession = some t) : ∃ L, (pySplitWs L)[1]? = some t := by
  obtain ⟨ha, -, -⟩ := scan_lines_ok_fields _ _ _ hok
  rw [ha, foldl_stepAcc_eq] at hacc
  cases hL : lastMatch (fun l => pyStartsWith l "ACCESSION") lines with
  | none => rw [hL] at hacc; cases hacc
  | some L => rw [hL] at hacc; exact ⟨L, hacc⟩

/-! ## The claims -/

/-- C1, counterexample: the Field Extractor can fail.  The block
`"ACCESSION X1\nLOCUS X1 12f3 bp"` has a `LOCUS` line whose third token is
not an integer, and extraction raises `ValueError` for the whole call
instead of propagating a null/garbage field. -/
theorem c1_extractor_total_counterexample :
    parse_records ["ACCESSION X1\nLOCUS X1 12f3 bp"] = .error "ValueError" := by decide

/-- C1, amended: for blocks in which every `ACCESSION` line has a second
token and every `LOCUS` line has an integer third token, extraction never
fails; and a block missing length and description entirely still yields a
row with those fields null.  (A malformed `LOCUS`/`ACCESSION` line instead
raises, aborting extraction — see the counterexample.) -/
theorem c1_extractor_total_amended (records : List String)
    (h : ∀ r ∈ records, ∀ line ∈ pySplit r "\n", lineWF line = true) :
    (∃ rows, parse_records records = .ok rows) ∧
    parse_records ["ACCESSION AB1"] = .ok [⟨"AB1", none, none⟩] :=
  ⟨parse_records_go_ok records [] h, by decide⟩

theorem c1_extractor_total_amended_witness :
    (∃ rows, parse_records ["ACCESSION AB1\nLOCUS AB1 777 bp"] = .ok rows) ∧
    parse_records ["ACCESSION AB1"] = .ok [⟨"AB1", none, none⟩] :=
  c1_extractor_total_amended ["ACCESSION AB1\nLOCUS AB1 777 bp"] (by decide)

/-- C2, counterexample: `[:-1]` drops the last segment unconditionally, not
just a trailing empty one.  The batch response `"recA"` (no trailing
separator) splits into the single non-empty segment `"recA"`, and the
fetcher keeps nothing: a non-empty block is silently dropped. -/
theorem c2_split_counterexample :
    pySplit "recA" "//\n" = ["recA"] ∧ splitBlocks "recA" = [] := by decide

/-- C2, amended: for every batch response that ends with the record
separator `"//\n"` (as end-of-batch replies do), splitting discards exactly
the trailing empty segment and nothing else; `"recA//\nrecB//\n"` yields
exactly the blocks `"recA"`, `"recB"`; and the fetch result's length is the
sum of the per-batch block counts. -/
theorem c2_split_amended (r : String) (h : ("//\n" : String).data <:+ r.data)
    (pages : Nat → String) (count bs : Nat) :
    pySplit r "//\n" = splitBlocks r ++ [""] ∧
    pySplit "recA//\nrecB//\n" "//\n" = ["recA", "recB", ""] ∧
    splitBlocks "recA//\nrecB//\n" = ["recA", "recB"] ∧
    (fetch_records pages count bs).length
      = ((request_offsets count bs).map fun o => (splitBlocks (pages o)).length).sum := by
  refine ⟨pySplit_eq_splitBlocks_append_empty h, by decide, by decide, ?_⟩
  show ((request_offsets count bs).foldl
      (fun records start => records ++ splitBlocks (pages start)) []).length = _
  have := foldl_append_length (fun o => splitBlocks (pages o)) (request_offsets count bs) []
  simpa using this

theorem c2_split_amended_witness :
    pySplit "recA//\nrecB//\n" "//\n" = splitBlocks "recA//\nrecB//\n" ++ [""] ∧
    pySplit "recA//\nrecB//\n" "//\n" = ["recA", "recB", ""] ∧
    splitBlocks "recA//\nrecB//\n" = ["recA", "recB"] ∧
    (fetch_records (fun _ => "x//\ny//\n") 15 10).length
      = ((request_offsets 15 10).map fun o =>
          (splitBlocks ((fun _ : Nat => "x//\ny//\n") o)).length).sum :=
  c2_split_amended "recA//\nrecB//\n" (by decide) (fun _ => "x//\ny//\n") 15 10

/-- C3: for positive `count` and `batch_size` the Batch Fetcher issues
exactly `⌈count / batch_size⌉` page requests, at offsets
`0, batch_size, 2·batch_size, …`; in particular `count = 25`,
`batch_size = 10` gives the three offsets 0, 10, 20. -/
theorem c3_batch_offsets (count bs : Nat) (hc : 0 < count) (hb : 0 < bs) :
    request_offsets count bs = (List.range ((count + bs - 1) / bs)).map (fun i => i * bs) ∧
    (request_offsets count bs).length = (count + bs - 1) / bs ∧
    request_offsets 25 10 = [0, 10, 20] := by
  have h1 : request_offsets count bs
      = (List.range ((count + bs - 1) / bs)).map (fun i => i * bs) := by
    unfold request_offsets
    rw [pyRange_eq 0 count bs hb]
    simp
  exact ⟨h1, by rw [h1]; simp, by decide⟩

theorem c3_batch_offsets_witness :
    request_offsets 25 10 = (List.range ((25 + 10 - 1) / 10)).map (fun i => i * 10) ∧
    (request_offsets 25 10).length = (25 + 10 - 1) / 10 ∧
    request_offsets 25 10 = [0, 10, 20] :=
  c3_batch_offsets 25 10 (by decide) (by decide)

/-- C5: a search whose reported match count is zero returns `None` (a clean
empty result, by type not an exception), and the pipeline then exits with
"No records found" before any fetch or parse step — `main_run` never
consults `pages` and produces no `finished` rows (so no output files). -/
theorem c5_zero_matches_halt (remote : String → SearchResults) (pages : Nat → String)
    (taxid : String) (mn mx : Option Int)
    (h : (remote (search_term taxid mn mx)).count = 0) :
    search_taxid remote taxid mn mx = none ∧
    main_run remote pages taxid mn mx = .exited "No records found" := by
  have h1 : search_taxid remote taxid mn mx = none := by
    unfold search_taxid
    dsimp only
    rw [h]
    simp
  refine ⟨h1, ?_⟩
  unfold main_run
  rw [h1]

theorem c5_zero_matches_halt_witness :
    search_taxid (fun _ => ⟨0, "w", "k"⟩) "9606" none none = none ∧
    main_run (fun _ => ⟨0, "w", "k"⟩) (fun _ => "") "9606" none none
      = .exited "No records found" :=
  c5_zero_matches_halt (fun _ => ⟨0, "w", "k"⟩) (fun _ => "") "9606" none none rfl

/-- C6, counterexample: a supplied minimum of `0` is falsy, so the length
clause is omitted even though a minimum (and a maximum) was supplied —
the clause is therefore not appended "if and only if a minimum is
supplied".  A nonzero minimum shows the clause for contrast. -/
theorem c6_search_term_counterexample :
    search_term "9606" (some 0) (some 500) = "txid9606[Organism]" ∧
    search_term "9606" (some 1) (some 500) = "txid9606[Organism] AND 1:500[SLEN]" := by
  exact ⟨rfl, rfl⟩

/-- C6, amended: the search term always extends `txid<id>[Organism]`; the
clause ` AND <min>:<max>[SLEN]` is appended iff a nonzero minimum is
supplied (with the upper bound left empty when the maximum is absent or 0);
and a maximum supplied without a minimum is silently ignored. -/
theorem c6_search_term_amended (taxid : String) (mn mx : Option Int) :
    (∃ rest, search_term taxid mn mx = ("txid" ++ taxid ++ "[Organism]") ++ rest) ∧
    (∀ m, mn = some m → m ≠ 0 →
      search_term taxid mn mx
        = ("txid" ++ taxid ++ "[Organism]") ++
            (" AND " ++ toString m ++ ":" ++
              (match mx with
               | some x => if x ≠ 0 then toString x else ""
               | none => "") ++ "[SLEN]")) ∧
    (pyTruthyInt mn = false → search_term taxid mn mx = "txid" ++ taxid ++ "[Organism]") ∧
    search_term taxid none mx = search_term taxid none none := by
  have h2 : ∀ m, mn = some m → m ≠ 0 →
      search_term taxid mn mx
        = ("txid" ++ taxid ++ "[Organism]") ++
            (" AND " ++ toString m ++ ":" ++
              (match mx with
               | some x => if x ≠ 0 then toString x else ""
               | none => "") ++ "[SLEN]") := by
    intro m hm hm0
    subst hm
    unfold search_term
    dsimp only
    rw [if_pos hm0]
    apply String.ext
    simp [List.append_assoc]
  have h3 : pyTruthyInt mn = false → search_term taxid mn mx = "txid" ++ taxid ++ "[Organism]" := by
    intro hf
    unfold search_term
    cases mn with
    | none => rfl
    | some m =>
      dsimp only
      have hm0 : m = 0 := by
        unfold pyTruthyInt at hf
        simpa using hf
      rw [if_neg (by simp [hm0])]
  refine ⟨?_, h2, h3, ?_⟩
  · by_cases ht : pyTruthyInt mn = true
    · cases mn with
      | none => simp [pyTruthyInt] at ht
      | some m =>
        have hm0 : m ≠ 0 := by
          unfold pyTruthyInt at ht
          simpa using ht
        exact ⟨_, h2 m rfl hm0⟩
    · refine ⟨"", ?_⟩
      rw [h3 (by simpa using ht)]
      apply String.ext
      simp
  · unfold search_term
    rfl

theorem c6_search_term_amended_witness :
    (∃ rest, search_term "9606" (some 2) (some 7) = ("txid" ++ "9606" ++ "[Organism]") ++ rest) ∧
    (∀ m, (some 2 : Option Int) = some m → m ≠ 0 →
      search_term "9606" (some 2) (some 7)
        = ("txid" ++ "9606" ++ "[Organism]") ++
            (" AND " ++ toString m ++ ":" ++
              (match (some 7 : Option Int) with
               | some x => if x ≠ 0 then toString x else ""
               | none => "") ++ "[SLEN]")) ∧
    (pyTruthyInt (some 2) = false → search_term "9606" (some 2) (some 7)
        = "txid" ++ "9606" ++ "[Organism]") ∧
    search_term "9606" none (some 7) = search_term "9606" none none :=
  c6_search_term_amended "9606" (some 2) (some 7)

/-- C10: a supplied minimum length of 0 is tested for truthiness, so the
search behaves exactly as if no minimum were supplied: the length clause is
omitted and any supplied maximum is ignored too. -/
theorem c10_zero_min_like_absent (taxid : String) (mx : Option Int)
    (remote : String → SearchResults) :
    search_term taxid (some 0) mx = search_term taxid none mx ∧
    search_term taxid (some 0) mx = "txid" ++ taxid ++ "[Organism]" ∧
    search_taxid remote taxid (some 0) mx = search_taxid remote taxid none mx := by
  have h1 : search_term taxid (some 0) mx = search_term taxid none mx := by
    unfold search_term
    simp
  refine ⟨h1, ?_, ?_⟩
  · unfold search_term
    simp
  · unfold search_taxid
    rw [h1]

/-- C4, counterexample: the block
`"ACCESSION AB123456\nLOCUS AB123456"` contains an `ACCESSION` line whose
second token is `"AB123456"`, yet the extractor produces no output row at
all — the truncated `LOCUS` line raises `IndexError` first. -/
theorem c4_accession_second_token_counterexample :
    (pySplitWs "ACCESSION AB123456")[1]? = some "AB123456" ∧
    parse_records ["ACCESSION AB123456\nLOCUS AB123456"] = .error "IndexError" := by decide

/-- C4, amended: for every block whose line scan completes without raising,
if the last `ACCESSION`-marked line has second token `t` then the block's
single output row carries accession `t`, regardless of `DEFINITION`/`LOCUS`
presence; the spec's scenario block yields
`["AB123456", 1500, "Test organism gene"]`. -/
theorem c4_accession_second_token_amended (r : String) (st : ParseSt) (L t : String)
    (hok : scan_lines ⟨none, none, none⟩ (pySplit r "\n") = .ok st)
    (hL : lastMatch (fun l => pyStartsWith l "ACCESSION") (pySplit r "\n") = some L)
    (ht : (pySplitWs L)[1]? = some t) :
    parse_records [r] = .ok [⟨t, st.length, st.description⟩] ∧
    parse_records
        ["LOCUS       AB123456  1500 bp ...\nDEFINITION  Test organism gene\nACCESSION   AB123456\n"]
      = .ok [⟨"AB123456", some 1500, some "Test organism gene"⟩] := by
  refine ⟨?_, by decide⟩
  have hacc : st.accession = some t := by
    obtain ⟨ha, -, -⟩ := scan_lines_ok_fields _ _ _ hok
    rw [ha, foldl_stepAcc_eq, hL]
    exact ht
  exact parse_records_single_row hok hacc (pySplitWs_get?_ne_empty ht)

theorem c4_accession_second_token_amended_witness :
    parse_records
        ["LOCUS       AB123456  1500 bp ...\nDEFINITION  Test organism gene\nACCESSION   AB123456\n"]
      = .ok [⟨"AB123456", some 1500, some "Test organism gene"⟩] ∧
    parse_records
        ["LOCUS       AB123456  1500 bp ...\nDEFINITION  Test organism gene\nACCESSION   AB123456\n"]
      = .ok [⟨"AB123456", some 1500, some "Test organism gene"⟩] :=
  c4_accession_second_token_amended
    "LOCUS       AB123456  1500 bp ...\nDEFINITION  Test organism gene\nACCESSION   AB123456\n"
    ⟨some "AB123456", some 1500, some "Test organism gene"⟩
    "ACCESSION   AB123456" "AB123456" (by decide) (by decide) (by decide)

/-- C7, counterexample: an accession was found in the block
`"ACCESSION Z9\nLOCUS Z9 12x bp"`, yet no row is emitted for it — the
malformed `LOCUS` line raises `ValueError`, so "exactly one row per block
with a found accession" fails. -/
theorem c7_row_per_accession_counterexample :
    parse_records ["ACCESSION Z9\nLOCUS Z9 12x bp"] = .error "ValueError" := by decide

/-- C7, amended: for every block whose line scan completes without raising:
a block lacking `ACCESSION` lines (equivalently, one whose scan left the
accession unset) emits no row; a block whose scan found an accession emits
exactly one row; and the row's length/description are null whenever no
`LOCUS`/`DEFINITION` line is present. -/
theorem c7_row_per_accession_amended (r : String) (st : ParseSt)
    (hok : scan_lines ⟨none, none, none⟩ (pySplit r "\n") = .ok st) :
    ((∀ line ∈ pySplit r "\n", pyStartsWith line "ACCESSION" = false) →
      parse_records [r] = .ok []) ∧
    (st.accession = none → parse_records [r] = .ok []) ∧
    (∀ t, st.accession = some t → parse_records [r] = .ok [⟨t, st.length, st.description⟩]) ∧
    ((∀ line ∈ pySplit r "\n", pyStartsWith line "LOCUS" = false) → st.length = none) ∧
    ((∀ line ∈ pySplit r "\n", pyStartsWith line "DEFINITION" = false) →
      st.description = none) := by
  obtain ⟨ha, hl, hd⟩ := scan_lines_ok_fields _ _ _ hok
  have hwf := scan_lines_ok_wf _ _ _ hok
  refine ⟨?_, ?_, ?_, ?_, ?_⟩
  · intro hnone
    apply parse_records_no_row hok
    rw [ha, foldl_stepAcc_eq, lastMatch_eq_none hnone]
  · intro hacc
    exact parse_records_no_row hok hacc
  · intro t hacc
    obtain ⟨L, hLt⟩ := scan_accession_token hok hacc
    exact parse_records_single_row hok hacc (pySplitWs_get?_ne_empty hLt)
  · intro hnone
    rw [hl, foldl_stepLen_eq hwf, lastMatch_eq_none hnone]
  · intro hnone
    rw [hd, foldl_stepDef_eq, lastMatch_eq_none hnone]

theorem c7_row_per_accession_amended_witness :
    ((∀ line ∈ pySplit "ACCESSION K1" "\n", pyStartsWith line "ACCESSION" = false) →
      parse_records ["ACCESSION K1"] = .ok []) ∧
    ((⟨some "K1", none, none⟩ : ParseSt).accession = none →
      parse_records ["ACCESSION K1"] = .ok []) ∧
    (∀ t, (⟨some "K1", none, none⟩ : ParseSt).accession = some t →
      parse_records ["ACCESSION K1"] = .ok [⟨t, none, none⟩]) ∧
    ((∀ line ∈ pySplit "ACCESSION K1" "\n", pyStartsWith line "LOCUS" = false) →
      (⟨some "K1", none, none⟩ : ParseSt).length = none) ∧
    ((∀ line ∈ pySplit "ACCESSION K1" "\n", pyStartsWith line "DEFINITION" = false) →
      (⟨some "K1", none, none⟩ : ParseSt).description = none) :=
  c7_row_per_accession_amended "ACCESSION K1" ⟨some "K1", none, none⟩ (by decide)

/-- C8: within one block, each of the three markers is tracked
independently by the single line pass, and when several lines match the
same marker only the last one's value is kept (silently): the scan result —
and hence the emitted row — carries exactly the value of the last matching
line for each marker. -/
theorem c8_last_marker_wins (r : String) (st : ParseSt)
    (hok : scan_lines ⟨none, none, none⟩ (pySplit r "\n") = .ok st) :
    parse_records [r] = .ok (emit_row st) ∧
    st.accession
      = (match lastMatch (fun l => pyStartsWith l "ACCESSION") (pySplit r "\n") with
         | some L => accValue L
         | none => none) ∧
    st.length
      = (match lastMatch (fun l => pyStartsWith l "LOCUS") (pySplit r "\n") with
         | some L => locValue L
         | none => none) ∧
    st.description
      = (match lastMatch (fun l => pyStartsWith l "DEFINITION") (pySplit r "\n") with
         | some L => defValue L
         | none => none) := by
  obtain ⟨ha, hl, hd⟩ := scan_lines_ok_fields _ _ _ hok
  have hwf := scan_lines_ok_wf _ _ _ hok
  refine ⟨?_, ?_, ?_, ?_⟩
  · rw [parse_records_singleton, hok]
  · rw [ha]
    exact foldl_stepAcc_eq _ _
  · rw [hl]
    exact foldl_stepLen_eq hwf _
  · rw [hd]
    exact foldl_stepDef_eq _ _

theorem c8_last_marker_wins_witness :
    parse_records
        ["ACCESSION A1\nACCESSION B2\nLOCUS x 7 bp\nLOCUS y 9 bp\nDEFINITION  one\nDEFINITION  two"]
      = .ok [⟨"B2", some 9, some "two"⟩] ∧
    (some "B2" : Option String)
      = (match lastMatch (fun l => pyStartsWith l "ACCESSION")
            (pySplit "ACCESSION A1\nACCESSION B2\nLOCUS x 7 bp\nLOCUS y 9 bp\nDEFINITION  one\nDEFINITION  two" "\n") with
         | some L => accValue L
         | none => none) ∧
    (some 9 : Option Int)
      = (match lastMatch (fun l => pyStartsWith l "LOCUS")
            (pySplit "ACCESSION A1\nACCESSION B2\nLOCUS x 7 bp\nLOCUS y 9 bp\nDEFINITION  one\nDEFINITION  two" "\n") with
         | some L => locValue L
         | none => none) ∧
    (some "two" : Option String)
      = (match lastMatch (fun l => pyStartsWith l "DEFINITION")
            (pySplit "ACCESSION A1\nACCESSION B2\nLOCUS x 7 bp\nLOCUS y 9 bp\nDEFINITION  one\nDEFINITION  two" "\n") with
         | some L => defValue L
         | none => none) :=
  c8_last_marker_wins
    "ACCESSION A1\nACCESSION B2\nLOCUS x 7 bp\nLOCUS y 9 bp\nDEFINITION  one\nDEFINITION  two"
    ⟨some "B2", some 9, some "two"⟩ (by decide)

/-- Ordering used for the chart points, descending by length with missing
lengths last (the pair analogue of `lengthDescLe`). -/
def chartLe (p q : String × Option Int) : Bool :=
  match p.2, q.2 with
  | some x, some y => y ≤ x
  | some _, none => true
  | none, some _ => false
  | none, none => true

theorem lengthDescLe_trans : ∀ (a b c : Row),
    lengthDescLe a b = true → lengthDescLe b c = true → lengthDescLe a c = true := by
  rintro ⟨_, al, _⟩ ⟨_, bl, _⟩ ⟨_, cl, _⟩
  unfold lengthDescLe
  dsimp only
  cases al <;> cases bl <;> cases cl <;> simp <;> omega

theorem lengthDescLe_total : ∀ (a b : Row),
    (lengthDescLe a b || lengthDescLe b a) = true := by
  rintro ⟨_, al, _⟩ ⟨_, bl, _⟩
  unfold lengthDescLe
  dsimp only
  cases al <;> cases bl <;> simp <;> omega

/-- C9: the CSV report lists the rows in insertion (fetch) order beneath
the fixed header; the table handed to the plotting step comes back
unchanged (pandas `sort_values` returns a new frame); and the chart's
points are a permutation of the table's (accession, length) pairs ordered
by descending length. -/
theorem c9_report_order_and_pure_chart (data : List Row) :
    (generate_csv data).1 = "Accession,Length,Description" :: data.map rowCsv ∧
    (generate_csv data).2 = data ∧
    (plot_lengths (generate_csv data).2).2 = data ∧
    (plot_lengths data).1.Perm (data.map fun r => (r.accession, r.length)) ∧
    (plot_lengths data).1.Pairwise (fun p q => chartLe p q = true) := by
  refine ⟨rfl, rfl, rfl, ?_, ?_⟩
  · show (List.map _ (sort_values_length_desc data)).Perm _
    exact List.Perm.map _ (List.mergeSort_perm data lengthDescLe)
  · show (List.map (fun r => (r.accession, r.length)) (sort_values_length_desc data)).Pairwise _
    rw [List.pairwise_map]
    have hs := List.sorted_mergeSort lengthDescLe_trans lengthDescLe_total data
    exact hs.imp (fun h => h)
